import Mathlib

/-!
Verification development for `email_alert.py`.

The file shallowly embeds the program's pure core:
* `parse_subject` (lines 59-70): the two-regex subject parser, embedded as a
  deterministic backtracking matcher specialised to the two patterns;
* `check_gmail` (lines 74-154): one polling cycle as a pure function from the
  durable state file and the fetched message batch to the alerts dispatched and
  the (optionally) saved new state;
* the `while True` driver (lines 158-161) together with the
  `finally: sys.exit(0)` control flow.

Mail transport, SMTP and the clock are external collaborators: a message enters
the model as its id, its effective subject string, and a boolean recording
whether its parsed date passed the one-hour freshness window of line 113.
-/

namespace EmailAlert

/-! ### Character classes of the two regexes

Regex 1 (line 63): `^[\(\[\{]*\s*([0-9]+)[\)\]\}]*[,\.\-_/:\s]*([^\d].*)$`
Regex 2 (line 67): `^(.*?[^\d])[\s,\.\-_/:\(\)\[\]]*([0-9]+)[\)\]\}]*\s*$`

Whitespace is Python's `\s` restricted to ASCII (all subjects considered here
are ASCII).  Brace characters are written via `Char.ofNat` (123 = left brace,
125 = right brace), `nl` is the newline character. -/

def lbraceC : Char := Char.ofNat 123

def rbraceC : Char := Char.ofNat 125

def nl : Char := Char.ofNat 10

def isPySpace (c : Char) : Bool :=
  c == ' ' || c == Char.ofNat 9 || c == nl || c == Char.ofNat 13 ||
    c == Char.ofNat 11 || c == Char.ofNat 12

def isOpener (c : Char) : Bool :=
  c == '(' || c == '[' || c == lbraceC

def isCloser (c : Char) : Bool :=
  c == ')' || c == ']' || c == rbraceC

/-- Separator class of regex 1: `[,\.\-_/:\s]`. -/
def isSep1 (c : Char) : Bool :=
  c == ',' || c == '.' || c == '-' || c == '_' || c == '/' || c == ':' || isPySpace c

/-- Separator class of regex 2: `[\s,\.\-_/:\(\)\[\]]`. -/
def isSep2 (c : Char) : Bool :=
  isSep1 c || c == '(' || c == ')' || c == '[' || c == ']'

/-- Python `str.strip()` restricted to ASCII whitespace. -/
def pyStrip (l : List Char) : List Char :=
  ((l.dropWhile isPySpace).reverse.dropWhile isPySpace).reverse

/-- Python `int(...)` on a digit group. -/
def digitsVal (l : List Char) : Nat :=
  l.foldl (fun n c => 10 * n + (c.toNat - 48)) 0

/-- Backtracking over a greedy quantifier: try the longest extent first,
then shorter ones, returning the first success. -/
def firstSome {α : Type} (f : Nat → Option α) : Nat → Option α
  | 0 => f 0
  | n + 1 => ((f (n + 1)).orElse fun _ => firstSome f n)

/-- Tail `([^\d].*)$` of regex 1 at `rest`: the first character is any
non-digit, `.` does not match a newline, and `$` matches at the end of the
string or just before a single final newline.  Returns the captured group. -/
def g2match (rest : List Char) : Option (List Char) :=
  match rest with
  | [] => none
  | c :: cs =>
    if c.isDigit then none
    else
      match cs.dropWhile (fun x => !(x == nl)) with
      | [] => some (c :: cs)
      | [x] => if x == nl then some (c :: cs.takeWhile (fun y => !(y == nl))) else none
      | _ => none

/-- Segment `[\)\]\}]*[,\.\-_/:\s]*([^\d].*)$` of regex 1, with the greedy
closers and separators backtracking from their maximal runs.  (The `[0-9]+`
before this segment cannot give characters back: every character class that
follows excludes digits.) -/
def tail1 (rest : List Char) : Option (List Char) :=
  firstSome
    (fun c =>
      let r1 := rest.drop c
      firstSome (fun k => g2match (r1.drop k)) (r1.takeWhile isSep1).length)
    (rest.takeWhile isCloser).length

/-- Regex 1 anchored at the start: returns `(digit group, group 2)`.  The
opener and whitespace quantifiers need no backtracking search: openers,
whitespace and digits are pairwise disjoint classes, so giving characters back
can never lead to the mandatory digit. -/
def match1 (s : List Char) : Option (List Char × List Char) :=
  if ((s.dropWhile isOpener).dropWhile isPySpace).takeWhile Char.isDigit = [] then none
  else
    match tail1 (((s.dropWhile isOpener).dropWhile isPySpace).dropWhile Char.isDigit) with
    | some g2 => some (((s.dropWhile isOpener).dropWhile isPySpace).takeWhile Char.isDigit, g2)
    | none => none

/-- Segment `[\s,\.\-_/:\(\)\[\]]*([0-9]+)[\)\]\}]*\s*$` of regex 2 at `rest`:
returns the digit group.  Each greedy quantifier backtracks from its maximal
run; the digit run itself is forced maximal because no later class accepts a
digit. -/
def tail2 (rest : List Char) : Option (List Char) :=
  firstSome
    (fun m =>
      let r1 := rest.drop m
      let num := r1.takeWhile Char.isDigit
      if num.isEmpty then none
      else
        let r2 := r1.dropWhile Char.isDigit
        (firstSome
          (fun c =>
            let r3 := r2.drop c
            firstSome
              (fun w =>
                match r3.drop w with
                | [] => some ()
                | [x] => if x == nl then some () else none
                | _ => none)
              (r3.takeWhile isPySpace).length)
          (r2.takeWhile isCloser).length).map fun _ => num)
    (rest.takeWhile isSep2).length

/-- Lazy group `(.*?[^\d])` of regex 2: candidate prefixes are tried shortest
first.  `acc` is the prefix consumed so far and `dotOk` records that every
character of `acc` is acceptable to `.` (not a newline); the final character
of the candidate group matches `[^\d]` (any non-digit, newline included). -/
def match2go (acc : List Char) (dotOk : Bool) :
    List Char → Option (List Char × List Char)
  | [] => none
  | c :: rest =>
    if dotOk && !c.isDigit then
      match tail2 rest with
      | some num => some (acc ++ [c], num)
      | none => match2go (acc ++ [c]) (dotOk && !(c == nl)) rest
    else match2go (acc ++ [c]) (dotOk && !(c == nl)) rest

/-- Regex 2 anchored at the start: returns `(group 1, digit group)`. -/
def match2 (s : List Char) : Option (List Char × List Char) :=
  match2go [] true s

/-- Lines 59-70: `parse_subject`.  Strips the subject, tries the leading-number
regex, then the trailing-number regex, and otherwise reports no ordinal. -/
def parseSubjectChars (s : List Char) : List Char × Option Nat :=
  let t := pyStrip s
  match match1 t with
  | some (num, g2) => (pyStrip g2, some (digitsVal num))
  | none =>
    match match2 t with
    | some (g1, num) => (pyStrip g1, some (digitsVal num))
    | none => (t, none)

def parse_subject (s : String) : String × Option Nat :=
  let r := parseSubjectChars s.data
  (String.mk r.1, r.2)

/-! ### Python set operations

Python sets are modelled as duplicate-free lists in a deterministic
(first-insertion) order; a real Python set enumerates in an unspecified order,
and nothing below depends on the order, only on the set of elements. -/

/-- Python `set.add` seen as a pure operation. -/
def pyInsert {α : Type} [DecidableEq α] (x : α) (l : List α) : List α :=
  if x ∈ l then l else l ++ [x]

/-- Python `set(...)` of a list: deduplication. -/
def pyDedup {α : Type} [DecidableEq α] (l : List α) : List α :=
  l.foldl (fun acc x => pyInsert x acc) []

/-- Python `a.union(b)` on sets-as-lists. -/
def pyUnion {α : Type} [DecidableEq α] (a b : List α) : List α :=
  b.foldl (fun acc x => pyInsert x acc) a

/-- Python `==` on sets-as-lists: equality of the element sets. -/
def pySetEq {α : Type} [DecidableEq α] (a b : List α) : Bool :=
  a.all (fun x => x ∈ b) && b.all (fun x => x ∈ a)

/-! ### Durable state and one polling cycle

Line 10: `EXPECTED_PARTS = {1, 2, 3}`, a Python set, here as its element
list. -/

def EXPECTED_PARTS : List Nat := [1, 2, 3]

/-- One entry of `completed_subjects`: `{"received": [...], "completed": bool}`.
`received` is the JSON list written as `list(updated)` at lines 141/143. -/
structure SubjectRecord where
  received : List Nat
  completed : Bool

instance : DecidableEq SubjectRecord := fun a b =>
  decidable_of_iff (a.received = b.received ∧ a.completed = b.completed)
    (by cases a; cases b; simp)

/-- The JSON document written by `save_state` (lines 36-38, 145-147):
`completed_subjects` is a JSON object (insertion-ordered, unique keys), and
`seen_ids` and `alerted_subjects` are lists. -/
structure SavedState where
  completed_subjects : List (String × SubjectRecord)
  seen_ids : List String
  alerted_subjects : List String

instance : DecidableEq SavedState := fun a b =>
  decidable_of_iff
    (a.completed_subjects = b.completed_subjects ∧ a.seen_ids = b.seen_ids ∧
      a.alerted_subjects = b.alerted_subjects)
    (by cases a; cases b; simp)

/-- The runtime value bound to `alerted_subjects` in `check_gmail`: a Python
`set` on the very first run (line 31's default), but a plain JSON `list` after
any reload from disk — `load_state` never converts it (unlike `seen_ids`,
which line 78 wraps in `set(...)`). -/
inductive PyStrColl where
  | pset (l : List String)
  | plist (l : List String)
deriving DecidableEq

/-- Python `in` on either collection.  A `pset l` models a Python set by its
duplicate-free element list. -/
def PyStrColl.mem (b : String) : PyStrColl → Bool
  | .pset l => b ∈ l
  | .plist l => b ∈ l

/-- Python `.add`: defined on a set (a no-op when the element is present), an
`AttributeError` (modelled as `none`) on a list. -/
def PyStrColl.add (b : String) : PyStrColl → Option PyStrColl
  | .pset l => some (.pset (pyInsert b l))
  | .plist _ => none

/-- Python `list(...)` applied at line 147 before saving (`list` of a set
enumerates its elements; `list` of a list copies it). -/
def PyStrColl.toSavedList : PyStrColl → List String
  | .pset l => l
  | .plist l => l

/-- A fetched message as the cycle sees it: its IMAP id (decoded), its
effective subject (line 116's `msg["Subject"] or "No Subject"` already
applied), and whether its parsed date passed the one-hour window test of
line 113 (date parsing itself is collaborator glue). -/
structure Msg where
  mid : String
  subject : String
  fresh : Bool
deriving DecidableEq

/-- Python dict read `d.get(k)` / `d[k]` on an insertion-ordered dict
modelled as an association list with unique keys. -/
def dlookup {α : Type} (k : String) : List (String × α) → Option α
  | [] => none
  | (k', v) :: rest => if k' = k then some v else dlookup k rest

/-- Python dict write `d[k] = v`: replaces the value in place if the key is
present, otherwise appends the new key at the end. -/
def dictSet {α : Type} (k : String) (v : α) : List (String × α) → List (String × α)
  | [] => [(k, v)]
  | (k', v') :: rest =>
    if k' = k then (k, v) :: rest else (k', v') :: dictSet k v rest

/-- Line 123: `new_parts.setdefault(base, set()).add(part)`. -/
def npAdd (b : String) (p : Nat) : List (String × List Nat) → List (String × List Nat)
  | [] => [(b, [p])]
  | (b', s) :: rest =>
    if b' = b then (b', pyInsert p s) :: rest else (b', s) :: npAdd b p rest

/-- Line 120: `base in completed_subjects and completed_subjects[base].get("completed")`. -/
def completedFlag (completed : List (String × SubjectRecord)) (b : String) : Bool :=
  match dlookup b completed with
  | some r => r.completed
  | none => false

/-- Line 135: `set(completed_subjects.get(base, {}).get("received", []))`. -/
def recvSet (completed : List (String × SubjectRecord)) (b : String) : List Nat :=
  match dlookup b completed with
  | some r => pyDedup r.received
  | none => []

/-- Lines 95-124: the message scan.  Per message: skip ids already seen, skip
stale messages, parse the subject, skip messages without an ordinal, skip
bases already completed in the loaded state, and otherwise record the ordinal
under its base and the id as seen.  Returns the final `seen_ids` and
`new_parts`. -/
def processMsgs (completed : List (String × SubjectRecord)) :
    List Msg → List String → List (String × List Nat) →
      List String × List (String × List Nat)
  | [], seen, np => (seen, np)
  | m :: rest, seen, np =>
    if m.mid ∈ seen then processMsgs completed rest seen np
    else if !m.fresh then processMsgs completed rest seen np
    else
      match (parse_subject m.subject).2 with
      | none => processMsgs completed rest seen np
      | some part =>
        if completedFlag completed (parse_subject m.subject).1 then
          processMsgs completed rest seen np
        else
          processMsgs completed rest (pyInsert m.mid seen)
            (npAdd (parse_subject m.subject).1 part np)

/-- Lines 134-143: the merge-and-alert loop over `new_parts.items()`.  Returns
the bases passed to `send_alert`, in dispatch order, and — unless the loop
raised — the final `completed_subjects` dict and `alerted_subjects`
collection.  `send_alert(base)` at line 139 runs before
`alerted_subjects.add(base)` at line 140, so when `.add` raises
`AttributeError` (the collection is a list reloaded from JSON) the alert has
already been dispatched but the loop aborts: the result is `none` and
`save_state` is never reached. -/
def mergeLoop (completed : List (String × SubjectRecord)) (alerted : PyStrColl) :
    List (String × List Nat) →
      List String × Option (List (String × SubjectRecord) × PyStrColl)
  | [] => ([], some (completed, alerted))
  | (base, parts) :: rest =>
    let updated := pyUnion (recvSet completed base) parts
    if pySetEq updated EXPECTED_PARTS then
      if alerted.mem base then
        mergeLoop (dictSet base ⟨updated, true⟩ completed) alerted rest
      else
        match alerted.add base with
        | none => ([base], none)
        | some alerted' =>
          let r := mergeLoop (dictSet base ⟨updated, true⟩ completed) alerted' rest
          (base :: r.1, r.2)
    else
      mergeLoop (dictSet base ⟨updated, false⟩ completed) alerted rest

/-- The in-memory view of the state right after lines 76-79. -/
structure LoadedState where
  completed_subjects : List (String × SubjectRecord)
  seen_ids : List String
  alerted_subjects : PyStrColl

/-- Lines 29-33 plus the conversions of lines 77-79: a missing state file
yields the empty default (with `alerted_subjects` a set); an existing file
yields its content, with `seen_ids` converted to a set and
`alerted_subjects` left as the JSON list it was loaded as. -/
def load_state : Option SavedState → LoadedState
  | none => ⟨[], [], .pset []⟩
  | some st => ⟨st.completed_subjects, pyDedup st.seen_ids, .plist st.alerted_subjects⟩

/-- The scan phase of one cycle, started from the loaded state with an empty
`new_parts` dict. -/
def cycleScan (file : Option SavedState) (msgs : List Msg) :
    List String × List (String × List Nat) :=
  processMsgs (load_state file).completed_subjects msgs (load_state file).seen_ids []

/-- Lines 145-148 or the exception path: package the merge result.  `none`
means an exception escaped the body, was caught at line 151, and no state was
saved. -/
def finishCycle (scanSeen : List String) :
    List String × Option (List (String × SubjectRecord) × PyStrColl) →
      List String × Option SavedState
  | (alerts, none) => (alerts, none)
  | (alerts, some ca) => (alerts, some ⟨ca.1, scanSeen, ca.2.toSavedList⟩)

/-- Lines 74-154: one `check_gmail` cycle as a pure function of the durable
file and the fetched batch.  Returns the alert dispatches in order and the
saved state (`none` when the cycle raised and saved nothing). -/
def check_gmail (file : Option SavedState) (msgs : List Msg) :
    List String × Option SavedState :=
  finishCycle (cycleScan file msgs).1
    (mergeLoop (load_state file).completed_subjects
      (load_state file).alerted_subjects (cycleScan file msgs).2)

/-- The durable file after one cycle: unchanged when the cycle raised. -/
def fileAfter (file : Option SavedState) (msgs : List Msg) : Option SavedState :=
  match (check_gmail file msgs).2 with
  | none => file
  | some st => some st

/-- The durable file after a sequence of cycles. -/
def runFiles : Option SavedState → List (List Msg) → Option SavedState
  | file, [] => file
  | file, batch :: rest => runFiles (fileAfter file batch) rest

/-- A sequence of cycles (one process invocation each, the file reloaded every
time): all alert dispatches in order, and the final durable file. -/
def runCycles : Option SavedState → List (List Msg) → List String × Option SavedState
  | file, [] => ([], file)
  | file, batch :: rest =>
    let r := runCycles (fileAfter file batch) rest
    ((check_gmail file batch).1 ++ r.1, r.2)

/-! ### Process control of the driving loop -/

/-- How control leaves one call to `check_gmail`: normally, or by a
`SystemExit` escaping it. -/
inductive PControl where
  | normal
  | sysExit (code : Nat)

/-- Lines 151-154: whether the body succeeded or raised an `Exception` (caught
and printed at line 152), the `finally` block runs `sys.exit(0)`, and the
`SystemExit` it raises is not an `Exception`, so it propagates to the caller
on every path. -/
def check_gmail_control (file : Option SavedState) (msgs : List Msg) : PControl :=
  match (check_gmail file msgs).2 with
  | none => PControl.sysExit 0
  | some _ => PControl.sysExit 0

/-- Lines 158-161: the `while True` loop, driven by the stream of batches the
mailbox would deliver; counts the `check_gmail` calls actually made.  An
iteration whose call exits the process performs no further iteration. -/
def mainLoop : List (List Msg) → Option SavedState → Nat
  | [], _ => 0
  | batch :: rest, file =>
    match check_gmail_control file batch with
    | .normal => 1 + mainLoop rest (fileAfter file batch)
    | .sysExit _ => 1

/-! ### Basic lemmas about the Python set model -/

lemma mem_pyInsert {α : Type} [DecidableEq α] (x y : α) (l : List α) :
    x ∈ pyInsert y l ↔ x = y ∨ x ∈ l := by
  unfold pyInsert
  by_cases h : y ∈ l
  · simp only [if_pos h]
    constructor
    · exact Or.inr
    · rintro (rfl | hx)
      · exact h
      · exact hx
  · simp [h, List.mem_append, or_comm]

lemma nodup_pyInsert {α : Type} [DecidableEq α] (y : α) {l : List α} (h : l.Nodup) :
    (pyInsert y l).Nodup := by
  unfold pyInsert
  by_cases hy : y ∈ l
  · simpa [hy] using h
  · simp [hy, List.nodup_append, h]

lemma pyUnion_nil {α : Type} [DecidableEq α] (a : List α) : pyUnion a [] = a := rfl

lemma pyUnion_cons {α : Type} [DecidableEq α] (a : List α) (y : α) (ys : List α) :
    pyUnion a (y :: ys) = pyUnion (pyInsert y a) ys := rfl

lemma mem_pyUnion {α : Type} [DecidableEq α] (x : α) (a b : List α) :
    x ∈ pyUnion a b ↔ x ∈ a ∨ x ∈ b := by
  induction b generalizing a with
  | nil => simp [pyUnion_nil]
  | cons y ys ih =>
    rw [pyUnion_cons, ih, mem_pyInsert]
    simp only [List.mem_cons]
    tauto

lemma pyDedup_eq_pyUnion {α : Type} [DecidableEq α] (l : List α) :
    pyDedup l = pyUnion [] l := rfl

lemma mem_pyDedup {α : Type} [DecidableEq α] (x : α) (l : List α) :
    x ∈ pyDedup l ↔ x ∈ l := by
  rw [pyDedup_eq_pyUnion, mem_pyUnion]
  simp

lemma nodup_pyUnion {α : Type} [DecidableEq α] {a : List α} (b : List α) (h : a.Nodup) :
    (pyUnion a b).Nodup := by
  induction b generalizing a with
  | nil => exact h
  | cons y ys ih => exact pyUnion_cons a y ys ▸ ih (nodup_pyInsert y h)

lemma nodup_pyDedup {α : Type} [DecidableEq α] (l : List α) : (pyDedup l).Nodup := by
  rw [pyDedup_eq_pyUnion]
  exact nodup_pyUnion l List.nodup_nil

lemma pyUnion_eq_append {α : Type} [DecidableEq α] {b : List α} (a : List α)
    (hd : ∀ x ∈ b, x ∉ a) (hb : b.Nodup) : pyUnion a b = a ++ b := by
  induction b generalizing a with
  | nil => simp [pyUnion_nil]
  | cons y ys ih =>
    rw [pyUnion_cons]
    have hy : y ∉ a := hd y (List.mem_cons_self y ys)
    have hpy : pyInsert y a = a ++ [y] := by simp [pyInsert, hy]
    rw [List.nodup_cons] at hb
    have hd' : ∀ x ∈ ys, x ∉ a ++ [y] := by
      intro x hx
      simp only [List.mem_append, List.mem_singleton]
      rintro (hxa | rfl)
      · exact hd x (List.mem_cons_of_mem y hx) hxa
      · exact hb.1 hx
    rw [hpy, ih (a ++ [y]) hd' hb.2, List.append_assoc]
    rfl

lemma pyDedup_eq_self {α : Type} [DecidableEq α] {l : List α} (h : l.Nodup) :
    pyDedup l = l := by
  rw [pyDedup_eq_pyUnion, pyUnion_eq_append [] (by simp) h]
  rfl

lemma pySetEq_iff {α : Type} [DecidableEq α] (a b : List α) :
    pySetEq a b = true ↔ a.toFinset = b.toFinset := by
  simp only [pySetEq, Bool.and_eq_true, List.all_eq_true, decide_eq_true_eq,
    Finset.ext_iff, List.mem_toFinset]
  constructor
  · rintro ⟨h1, h2⟩ x
    exact ⟨h1 x, h2 x⟩
  · intro h
    exact ⟨fun x hx => (h x).1 hx, fun x hx => (h x).2 hx⟩

/-! ### Basic lemmas about the dict model -/

lemma dlookup_dictSet_self {α : Type} (k : String) (v : α) (d : List (String × α)) :
    dlookup k (dictSet k v d) = some v := by
  induction d with
  | nil => simp [dictSet, dlookup]
  | cons e rest ih =>
    obtain ⟨k', v'⟩ := e
    by_cases h : k' = k
    · simp [dictSet, dlookup, h]
    · simp [dictSet, dlookup, h, ih]

lemma dlookup_dictSet_ne {α : Type} {k x : String} (hx : x ≠ k) (v : α)
    (d : List (String × α)) : dlookup x (dictSet k v d) = dlookup x d := by
  induction d with
  | nil => simp [dictSet, dlookup, Ne.symm hx]
  | cons e rest ih =>
    obtain ⟨k', v'⟩ := e
    by_cases h : k' = k
    · subst h
      simp [dictSet, dlookup, Ne.symm hx]
    · simp [dictSet, dlookup, h, ih]

lemma mem_dictSet {α : Type} {q : String × α} {k : String} {v : α}
    {d : List (String × α)} (h : q ∈ dictSet k v d) : q = (k, v) ∨ q ∈ d := by
  induction d with
  | nil =>
    simp only [dictSet, List.mem_singleton] at h
    exact Or.inl h
  | cons e rest ih =>
    obtain ⟨k', v'⟩ := e
    by_cases hk : k' = k
    · simp only [dictSet, if_pos hk, List.mem_cons] at h
      rcases h with h | h
      · exact Or.inl h
      · exact Or.inr (List.mem_cons_of_mem _ h)
    · simp only [dictSet, if_neg hk, List.mem_cons] at h
      rcases h with h | h
      · exact Or.inr (by simp [h])
      · rcases ih h with h' | h'
        · exact Or.inl h'
        · exact Or.inr (List.mem_cons_of_mem _ h')

/-! ### Lemmas about `npAdd` -/

lemma npAdd_keys (b : String) (p : Nat) (np : List (String × List Nat)) :
    (npAdd b p np).map Prod.fst =
      if b ∈ np.map Prod.fst then np.map Prod.fst else np.map Prod.fst ++ [b] := by
  induction np with
  | nil => simp [npAdd]
  | cons e rest ih =>
    obtain ⟨b', s⟩ := e
    by_cases h : b' = b
    · subst h
      simp [npAdd]
    · by_cases hb : b ∈ rest.map Prod.fst
      · simp [npAdd, h, ih, hb, Ne.symm h]
      · simp [npAdd, h, ih, hb, Ne.symm h]

lemma npAdd_nodupKeys {np : List (String × List Nat)}
    (h : (np.map Prod.fst).Nodup) (b : String) (p : Nat) :
    ((npAdd b p np).map Prod.fst).Nodup := by
  rw [npAdd_keys]
  by_cases hb : b ∈ np.map Prod.fst
  · simpa [hb] using h
  · simp [hb, List.nodup_append, h]

lemma mem_npAdd_key {q : String × List Nat} {b : String} {p : Nat}
    {np : List (String × List Nat)} (h : q ∈ npAdd b p np) :
    q.1 = b ∨ q.1 ∈ np.map Prod.fst := by
  have h1 : q.1 ∈ (npAdd b p np).map Prod.fst := List.mem_map_of_mem Prod.fst h
  rw [npAdd_keys] at h1
  by_cases hb : b ∈ np.map Prod.fst
  · rw [if_pos hb] at h1
    exact Or.inr h1
  · rw [if_neg hb] at h1
    rcases List.mem_append.mp h1 with h2 | h2
    · exact Or.inr h2
    · exact Or.inl (by simpa using h2)

/-! ### Lemmas about the message scan -/

lemma processMsgs_seen_mono (c : List (String × SubjectRecord)) (msgs : List Msg) :
    ∀ {seen : List String} (np : List (String × List Nat)) {x : String}, x ∈ seen →
      x ∈ (processMsgs c msgs seen np).1 := by
  induction msgs with
  | nil => intro seen np x hx; exact hx
  | cons m rest ih =>
    intro seen np x hx
    simp only [processMsgs]
    split
    · exact ih np hx
    · split
      · exact ih np hx
      · split
        · exact ih np hx
        · split
          · exact ih np hx
          · exact ih _ ((mem_pyInsert x m.mid seen).mpr (Or.inr hx))

lemma processMsgs_nodup_seen (c : List (String × SubjectRecord)) (msgs : List Msg) :
    ∀ {seen : List String} (np : List (String × List Nat)), seen.Nodup →
      ((processMsgs c msgs seen np).1).Nodup := by
  induction msgs with
  | nil => intro seen np h; exact h
  | cons m rest ih =>
    intro seen np h
    simp only [processMsgs]
    split
    · exact ih np h
    · split
      · exact ih np h
      · split
        · exact ih np h
        · split
          · exact ih np h
          · exact ih _ (nodup_pyInsert _ h)

lemma processMsgs_nodupKeys (c : List (String × SubjectRecord)) (msgs : List Msg) :
    ∀ {seen : List String} {np : List (String × List Nat)}, (np.map Prod.fst).Nodup →
      (((processMsgs c msgs seen np).2).map Prod.fst).Nodup := by
  induction msgs with
  | nil => intro seen np h; exact h
  | cons m rest ih =>
    intro seen np h
    simp only [processMsgs]
    split
    · exact ih h
    · split
      · exact ih h
      · split
        · exact ih h
        · split
          · exact ih h
          · exact ih (npAdd_nodupKeys h _ _)

lemma processMsgs_keys_flagFalse (c : List (String × SubjectRecord)) (msgs : List Msg) :
    ∀ {seen : List String} {np : List (String × List Nat)},
      (∀ q ∈ np, completedFlag c q.1 = false) →
      ∀ q ∈ (processMsgs c msgs seen np).2, completedFlag c q.1 = false := by
  induction msgs with
  | nil => intro seen np h; exact h
  | cons m rest ih =>
    intro seen np h
    simp only [processMsgs]
    split
    · exact ih h
    · split
      · exact ih h
      · split
        · exact ih h
        · split
          · exact ih h
          · next hflag =>
            apply ih
            intro q hq
            rcases mem_npAdd_key hq with hk | hk
            · rw [hk]
              exact Bool.eq_false_iff.mpr hflag
            · rcases List.mem_map.mp hk with ⟨q', hq', he⟩
              rw [← he]
              exact h q' hq'

lemma processMsgs_seen_src (c : List (String × SubjectRecord)) (msgs : List Msg) :
    ∀ {seen : List String} {np : List (String × List Nat)} {x : String},
      x ∈ (processMsgs c msgs seen np).1 →
      x ∈ seen ∨ ∃ m ∈ msgs, m.mid = x ∧ m.fresh = true ∧
        (parse_subject m.subject).2 ≠ none ∧
        completedFlag c (parse_subject m.subject).1 = false := by
  induction msgs with
  | nil => intro seen np x hx; exact Or.inl hx
  | cons m rest ih =>
    intro seen np x hx
    have push : (x ∈ seen ∨ ∃ m' ∈ rest, m'.mid = x ∧ m'.fresh = true ∧
        (parse_subject m'.subject).2 ≠ none ∧
        completedFlag c (parse_subject m'.subject).1 = false) →
        x ∈ seen ∨ ∃ m' ∈ m :: rest, m'.mid = x ∧ m'.fresh = true ∧
        (parse_subject m'.subject).2 ≠ none ∧
        completedFlag c (parse_subject m'.subject).1 = false := by
      rintro (hs | ⟨m', hm', hrest⟩)
      · exact Or.inl hs
      · exact Or.inr ⟨m', List.mem_cons_of_mem m hm', hrest⟩
    simp only [processMsgs] at hx
    split at hx
    · exact push (ih hx)
    · next hseen =>
      split at hx
      · exact push (ih hx)
      · next hfr =>
        split at hx
        · exact push (ih hx)
        · next part hpart =>
          split at hx
          · exact push (ih hx)
          · next hflag =>
            rcases ih hx with hs | hrest
            · rcases (mem_pyInsert x m.mid seen).mp hs with rfl | hs'
              · refine Or.inr ⟨m, List.mem_cons_self m rest, rfl, ?_, ?_, ?_⟩
                · simp only [Bool.not_eq_true] at hfr
                  simpa using hfr
                · simp [hpart]
                · exact Bool.eq_false_iff.mpr hflag
              · exact Or.inl hs'
            · exact push (Or.inr hrest)

lemma processMsgs_seen_contrib (c : List (String × SubjectRecord)) {m : Msg}
    (hfr : m.fresh = true) (hp : (parse_subject m.subject).2 ≠ none)
    (hflag : completedFlag c (parse_subject m.subject).1 = false) :
    ∀ {msgs : List Msg} (seen : List String) (np : List (String × List Nat)),
      m ∈ msgs → m.mid ∈ (processMsgs c msgs seen np).1 := by
  intro msgs
  induction msgs with
  | nil => exact fun seen np hm => absurd hm (List.not_mem_nil m)
  | cons m0 rest ih =>
    intro seen np hm
    rcases List.mem_cons.mp hm with rfl | hm'
    · simp only [processMsgs]
      split
      · next hs => exact processMsgs_seen_mono c rest np hs
      · split
        · next hf =>
          rw [hfr] at hf
          simp at hf
        · split
          · next heq => exact absurd heq hp
          · split
            · next hfl => rw [hflag] at hfl; simp at hfl
            · exact processMsgs_seen_mono c rest _
                ((mem_pyInsert m.mid m.mid seen).mpr (Or.inl rfl))
    · simp only [processMsgs]
      split
      · exact ih seen np hm'
      · split
        · exact ih seen np hm'
        · split
          · exact ih seen np hm'
          · split
            · exact ih seen np hm'
            · exact ih _ _ hm'

lemma processMsgs_skip_all (c : List (String × SubjectRecord)) :
    ∀ {msgs : List Msg} {seen : List String} {np : List (String × List Nat)},
      (∀ m ∈ msgs, m.mid ∈ seen ∨ m.fresh = false ∨ (parse_subject m.subject).2 = none ∨
        completedFlag c (parse_subject m.subject).1 = true) →
      processMsgs c msgs seen np = (seen, np) := by
  intro msgs
  induction msgs with
  | nil => exact fun _ => rfl
  | cons m rest ih =>
    intro seen np h
    have hm := h m (List.mem_cons_self m rest)
    have hrest := fun m' hm' => h m' (List.mem_cons_of_mem m hm')
    by_cases hs : m.mid ∈ seen
    · simp only [processMsgs, if_pos hs]
      exact ih hrest
    · by_cases hf2 : m.fresh = true
      · cases hp2 : (parse_subject m.subject).2 with
        | none =>
          simp only [processMsgs]
          simp only [hs, if_false, hf2, hp2]
          simp only [Bool.not_true, if_neg (by simp : ¬(false = true))]
          exact ih hrest
        | some part =>
          have hfl : completedFlag c (parse_subject m.subject).1 = true := by
            rcases hm with h1 | h1 | h1 | h1
            · exact absurd h1 hs
            · simp [h1] at hf2
            · rw [h1] at hp2; cases hp2
            · exact h1
          simp only [processMsgs]
          simp only [hs, if_false, hf2, hp2]
          simp only [Bool.not_true, if_neg (by simp : ¬(false = true)), if_pos hfl]
          exact ih hrest
      · simp only [processMsgs]
        have hf3 : (!m.fresh) = true := by
          simp [Bool.not_eq_true] at hf2
          simp [hf2]
        simp only [if_neg hs, if_pos hf3]
        exact ih hrest

/-! ### Lemmas about the merge-and-alert loop -/

lemma completedFlag_dictSet_self (k : String) (v : SubjectRecord)
    (c : List (String × SubjectRecord)) :
    completedFlag (dictSet k v c) k = v.completed := by
  unfold completedFlag
  rw [dlookup_dictSet_self]

lemma completedFlag_dictSet_ne {k x : String} (hx : x ≠ k) (v : SubjectRecord)
    (c : List (String × SubjectRecord)) :
    completedFlag (dictSet k v c) x = completedFlag c x := by
  unfold completedFlag
  rw [dlookup_dictSet_ne hx]

lemma recvSet_dictSet_ne {k x : String} (hx : x ≠ k) (v : SubjectRecord)
    (c : List (String × SubjectRecord)) :
    recvSet (dictSet k v c) x = recvSet c x := by
  unfold recvSet
  rw [dlookup_dictSet_ne hx]

lemma pyColl_add_mem {a a' : PyStrColl} {b : String} (h : a.add b = some a')
    (x : String) : a'.mem x = true ↔ x = b ∨ a.mem x = true := by
  cases a with
  | pset l =>
    simp only [PyStrColl.add, Option.some.injEq] at h
    rw [← h]
    simp only [PyStrColl.mem, decide_eq_true_eq, mem_pyInsert]
  | plist l => cases h

lemma mem_toSavedList (a : PyStrColl) (x : String) :
    x ∈ a.toSavedList ↔ a.mem x = true := by
  cases a <;> simp [PyStrColl.toSavedList, PyStrColl.mem]

lemma mergeLoop_lookup_not_mem {b : String} :
    ∀ {np : List (String × List Nat)}, b ∉ np.map Prod.fst →
      ∀ {c : List (String × SubjectRecord)} {alerted : PyStrColl}
        {c' : List (String × SubjectRecord)} {a' : PyStrColl},
        (mergeLoop c alerted np).2 = some (c', a') →
        dlookup b c' = dlookup b c := by
  intro np
  induction np with
  | nil =>
    intro _ c alerted c' a' h
    simp only [mergeLoop, Option.some.injEq, Prod.mk.injEq] at h
    rw [← h.1]
  | cons e rest ih =>
    intro hb c alerted c' a' h
    obtain ⟨base, parts⟩ := e
    have hbne : b ≠ base := by
      intro hq
      exact hb (by simp [hq])
    have hbr : b ∉ rest.map Prod.fst := by
      intro hq
      exact hb (by simp [hq])
    simp only [mergeLoop] at h
    split at h
    · split at h
      · rw [ih hbr h, dlookup_dictSet_ne hbne]
      · split at h
        · simp at h
        · rw [ih hbr h, dlookup_dictSet_ne hbne]
    · rw [ih hbr h, dlookup_dictSet_ne hbne]

lemma mergeLoop_lookup :
    ∀ {np : List (String × List Nat)}, (np.map Prod.fst).Nodup →
      ∀ {b : String} {parts : List Nat} {c : List (String × SubjectRecord)}
        {alerted : PyStrColl} {c' : List (String × SubjectRecord)} {a' : PyStrColl},
        (b, parts) ∈ np → (mergeLoop c alerted np).2 = some (c', a') →
        dlookup b c' = some ⟨pyUnion (recvSet c b) parts,
          pySetEq (pyUnion (recvSet c b) parts) EXPECTED_PARTS⟩ := by
  intro np
  induction np with
  | nil =>
    intro _ b parts c alerted c' a' hmem _
    cases hmem
  | cons e rest ih =>
    intro hnd b parts c alerted c' a' hmem h
    obtain ⟨base, parts0⟩ := e
    simp only [List.map_cons, List.nodup_cons] at hnd
    rcases List.mem_cons.mp hmem with heq | hmem'
    · have hb : b = base := congrArg Prod.fst heq
      have hp : parts = parts0 := congrArg Prod.snd heq
      subst hb
      subst hp
      have hbr : b ∉ rest.map Prod.fst := hnd.1
      simp only [mergeLoop] at h
      split at h
      · next hset =>
        split at h
        · rw [mergeLoop_lookup_not_mem hbr h, dlookup_dictSet_self, hset]
        · split at h
          · simp at h
          · rw [mergeLoop_lookup_not_mem hbr h, dlookup_dictSet_self, hset]
      · next hset =>
        rw [mergeLoop_lookup_not_mem hbr h, dlookup_dictSet_self,
          Bool.eq_false_iff.mpr hset]
    · have hbk : b ∈ rest.map Prod.fst := by
        have : (b, parts).1 ∈ rest.map Prod.fst := List.mem_map_of_mem Prod.fst hmem'
        simpa using this
      have hne : b ≠ base := by
        intro hq
        exact hnd.1 (hq ▸ hbk)
      simp only [mergeLoop] at h
      split at h
      · split at h
        · rw [ih hnd.2 hmem' h, recvSet_dictSet_ne hne]
        · split at h
          · simp at h
          · rw [ih hnd.2 hmem' h, recvSet_dictSet_ne hne]
      · rw [ih hnd.2 hmem' h, recvSet_dictSet_ne hne]

lemma mergeLoop_alerted_flag :
    ∀ {np : List (String × List Nat)}, (np.map Prod.fst).Nodup →
      ∀ {c : List (String × SubjectRecord)} {alerted : PyStrColl}
        {c' : List (String × SubjectRecord)} {a' : PyStrColl},
        (∀ x, alerted.mem x = true → completedFlag c x = true) →
        (∀ q ∈ np, completedFlag c q.1 = false) →
        (mergeLoop c alerted np).2 = some (c', a') →
        ∀ x, a'.mem x = true → completedFlag c' x = true := by
  intro np
  induction np with
  | nil =>
    intro _ c alerted c' a' hA _ h x hx
    simp only [mergeLoop, Option.some.injEq, Prod.mk.injEq] at h
    rw [← h.1]
    exact hA x (h.2 ▸ hx)
  | cons e rest ih =>
    intro hnd c alerted c' a' hA hN h x hx
    obtain ⟨base, parts⟩ := e
    simp only [List.map_cons, List.nodup_cons] at hnd
    have hflbase : completedFlag c base = false :=
      hN (base, parts) (List.mem_cons_self _ rest)
    have hrest : ∀ q ∈ rest, completedFlag c q.1 = false :=
      fun q hq => hN q (List.mem_cons_of_mem _ hq)
    have hNr : ∀ (v : SubjectRecord) (q : String × List Nat), q ∈ rest →
        completedFlag (dictSet base v c) q.1 = false := by
      intro v q hq
      have hqk : q.1 ∈ rest.map Prod.fst := List.mem_map_of_mem Prod.fst hq
      have hqne : q.1 ≠ base := fun hqb => hnd.1 (hqb ▸ hqk)
      rw [completedFlag_dictSet_ne hqne]
      exact hrest q hq
    have hAne : ∀ y, alerted.mem y = true → y ≠ base := by
      intro y hy hyb
      have := hA y hy
      rw [hyb, hflbase] at this
      cases this
    simp only [mergeLoop] at h
    split at h
    · next hset =>
      split at h
      · next hmem =>
        have := hA base hmem
        rw [hflbase] at this
        cases this
      · split at h
        · simp at h
        · next alerted2 hadd =>
          refine ih hnd.2 ?_ (hNr _) h x hx
          intro y hy
          rcases (pyColl_add_mem hadd y).mp hy with rfl | hy'
          · rw [completedFlag_dictSet_self]
          · rw [completedFlag_dictSet_ne (hAne y hy')]
            exact hA y hy'
    · next hset =>
      refine ih hnd.2 ?_ (hNr _) h x hx
      intro y hy
      rw [completedFlag_dictSet_ne (hAne y hy)]
      exact hA y hy

lemma mergeLoop_good :
    ∀ {np : List (String × List Nat)} {c : List (String × SubjectRecord)}
      {alerted : PyStrColl} {c' : List (String × SubjectRecord)} {a' : PyStrColl},
      (∀ q ∈ c, q.2.completed = true → q.2.received.toFinset = EXPECTED_PARTS.toFinset) →
      (mergeLoop c alerted np).2 = some (c', a') →
      ∀ q ∈ c', q.2.completed = true → q.2.received.toFinset = EXPECTED_PARTS.toFinset := by
  intro np
  induction np with
  | nil =>
    intro c alerted c' a' hg h
    simp only [mergeLoop, Option.some.injEq, Prod.mk.injEq] at h
    rw [← h.1]
    exact hg
  | cons e rest ih =>
    intro c alerted c' a' hg h
    obtain ⟨base, parts⟩ := e
    simp only [mergeLoop] at h
    split at h
    · next hset =>
      have hgood : ∀ q ∈ dictSet base
          (⟨pyUnion (recvSet c base) parts, true⟩ : SubjectRecord) c,
          q.2.completed = true → q.2.received.toFinset = EXPECTED_PARTS.toFinset := by
        intro q hq hqc
        rcases mem_dictSet hq with rfl | hq'
        · exact (pySetEq_iff _ _).mp hset
        · exact hg q hq' hqc
      split at h
      · exact ih hgood h
      · split at h
        · simp at h
        · exact ih hgood h
    · refine ih ?_ h
      intro q hq hqc
      rcases mem_dictSet hq with rfl | hq'
      · cases hqc
      · exact hg q hq' hqc

/-! ### Lemmas about the parser on pure-digit subjects -/

lemma digit_not_opener {c : Char} (h : c.isDigit = true) : isOpener c = false := by
  cases h2 : isOpener c
  · rfl
  · exfalso
    simp only [isOpener, Bool.or_eq_true, beq_iff_eq] at h2
    rcases h2 with (h2 | h2) | h2 <;> subst h2 <;> exact absurd h (by decide)

lemma digit_not_space {c : Char} (h : c.isDigit = true) : isPySpace c = false := by
  cases h2 : isPySpace c
  · rfl
  · exfalso
    simp only [isPySpace, Bool.or_eq_true, beq_iff_eq] at h2
    rcases h2 with ((((h2 | h2) | h2) | h2) | h2) | h2 <;> subst h2 <;>
      exact absurd h (by decide)

lemma dropWhile_all_digits {p : Char → Bool} (hp : ∀ c, c.isDigit = true → p c = false)
    {l : List Char} (h : ∀ c ∈ l, c.isDigit = true) : l.dropWhile p = l := by
  cases l with
  | nil => rfl
  | cons c cs =>
    rw [List.dropWhile_cons, hp c (h c (List.mem_cons_self c cs))]
    simp

lemma takeWhile_all_digits {l : List Char} (h : ∀ c ∈ l, c.isDigit = true) :
    l.takeWhile Char.isDigit = l := by
  induction l with
  | nil => rfl
  | cons c cs ih =>
    rw [List.takeWhile_cons, h c (List.mem_cons_self c cs)]
    simp only [if_true]
    rw [ih (fun x hx => h x (List.mem_cons_of_mem c hx))]

lemma dropWhile_digits_nil {l : List Char} (h : ∀ c ∈ l, c.isDigit = true) :
    l.dropWhile Char.isDigit = [] := by
  induction l with
  | nil => rfl
  | cons c cs ih =>
    rw [List.dropWhile_cons, h c (List.mem_cons_self c cs)]
    simp only [if_true]
    exact ih (fun x hx => h x (List.mem_cons_of_mem c hx))

lemma match1_all_digits {l : List Char} (h : ∀ c ∈ l, c.isDigit = true) :
    match1 l = none := by
  unfold match1
  rw [dropWhile_all_digits (fun c hc => digit_not_opener hc) h,
    dropWhile_all_digits (fun c hc => digit_not_space hc) h,
    takeWhile_all_digits h, dropWhile_digits_nil h]
  cases l with
  | nil => rfl
  | cons c cs => rfl

lemma match2go_all_digits (acc : List Char) (dotOk : Bool) :
    ∀ {l : List Char}, (∀ c ∈ l, c.isDigit = true) → match2go acc dotOk l = none := by
  intro l
  induction l generalizing acc dotOk with
  | nil => intro _; rfl
  | cons c cs ih =>
    intro h
    have hc : c.isDigit = true := h c (List.mem_cons_self c cs)
    simp only [match2go, hc, Bool.not_true, Bool.and_false, Bool.false_eq_true, if_false]
    exact ih _ _ (fun x hx => h x (List.mem_cons_of_mem c hx))

lemma match2_all_digits {l : List Char} (h : ∀ c ∈ l, c.isDigit = true) :
    match2 l = none :=
  match2go_all_digits [] true h

/-! ### Lemmas about one full cycle -/

lemma check_gmail_some {file : Option SavedState} {msgs : List Msg} {saved : SavedState}
    (h : (check_gmail file msgs).2 = some saved) :
    ∃ c' a',
      (mergeLoop (load_state file).completed_subjects (load_state file).alerted_subjects
        (cycleScan file msgs).2).2 = some (c', a') ∧
      saved.completed_subjects = c' ∧ saved.seen_ids = (cycleScan file msgs).1 ∧
      saved.alerted_subjects = PyStrColl.toSavedList a' := by
  unfold check_gmail at h
  cases hML : mergeLoop (load_state file).completed_subjects
      (load_state file).alerted_subjects (cycleScan file msgs).2 with
  | mk al oca =>
    rw [hML] at h
    cases oca with
    | none => simp [finishCycle] at h
    | some ca =>
      obtain ⟨c2, a2⟩ := ca
      simp only [finishCycle, Option.some.injEq] at h
      exact ⟨c2, a2, rfl, by rw [← h], by rw [← h], by rw [← h]⟩

lemma scan_keys_flagFalse (file : Option SavedState) (msgs : List Msg) :
    ∀ q ∈ (cycleScan file msgs).2,
      completedFlag (load_state file).completed_subjects q.1 = false := by
  have h0 : ∀ q ∈ ([] : List (String × List Nat)),
      completedFlag (load_state file).completed_subjects q.1 = false := by
    intro q hq
    cases hq
  exact processMsgs_keys_flagFalse (load_state file).completed_subjects msgs h0

lemma scan_nodupKeys (file : Option SavedState) (msgs : List Msg) :
    (((cycleScan file msgs).2).map Prod.fst).Nodup :=
  processMsgs_nodupKeys (load_state file).completed_subjects msgs (by simp)

lemma scan_not_mem_keys {file : Option SavedState} {msgs : List Msg} {b : String}
    (hflag : completedFlag (load_state file).completed_subjects b = true) :
    b ∉ ((cycleScan file msgs).2).map Prod.fst := by
  intro hmem
  rcases List.mem_map.mp hmem with ⟨q, hq, hq1⟩
  have hf := scan_keys_flagFalse file msgs q hq
  rw [hq1, hflag] at hf
  cases hf

lemma cycle_preserves_completed {file : Option SavedState} {msgs : List Msg}
    {b : String} {saved : SavedState}
    (hflag : completedFlag (load_state file).completed_subjects b = true)
    (h : (check_gmail file msgs).2 = some saved) :
    dlookup b saved.completed_subjects
      = dlookup b (load_state file).completed_subjects := by
  obtain ⟨c2, a2, hm, hc, -, -⟩ := check_gmail_some h
  rw [hc]
  exact mergeLoop_lookup_not_mem (scan_not_mem_keys hflag) hm

lemma completedFlag_eq_of_dlookup {c1 c2 : List (String × SubjectRecord)} {b : String}
    (h : dlookup b c1 = dlookup b c2) : completedFlag c1 b = completedFlag c2 b := by
  unfold completedFlag
  rw [h]

lemma fileAfter_of_none {file : Option SavedState} {msgs : List Msg}
    (h : (check_gmail file msgs).2 = none) : fileAfter file msgs = file := by
  unfold fileAfter
  rw [h]

lemma fileAfter_of_some {file : Option SavedState} {msgs : List Msg} {st : SavedState}
    (h : (check_gmail file msgs).2 = some st) : fileAfter file msgs = some st := by
  unfold fileAfter
  rw [h]

lemma fileAfter_preserves_completed (file : Option SavedState) (msgs : List Msg)
    (b : String)
    (hflag : completedFlag (load_state file).completed_subjects b = true) :
    dlookup b (load_state (fileAfter file msgs)).completed_subjects
      = dlookup b (load_state file).completed_subjects := by
  cases h : (check_gmail file msgs).2 with
  | none => rw [fileAfter_of_none h]
  | some saved =>
    rw [fileAfter_of_some h]
    exact cycle_preserves_completed hflag h

/-! ### The Process State invariant of the spec -/

/-- Invariant of a persisted state: every alerted base has a record with
`completed = true`, and every completed record holds exactly the expected
ordinal set. -/
def StateInv (st : SavedState) : Prop :=
  (∀ b ∈ st.alerted_subjects, completedFlag st.completed_subjects b = true) ∧
    ∀ q ∈ st.completed_subjects, q.2.completed = true →
      q.2.received.toFinset = EXPECTED_PARTS.toFinset

/-- The invariant lifted to an optional state file. -/
def FileInv : Option SavedState → Prop
  | none => True
  | some st => StateInv st

lemma cycle_inv {file : Option SavedState} {msgs : List Msg} {saved : SavedState}
    (hinv : FileInv file) (h : (check_gmail file msgs).2 = some saved) :
    StateInv saved := by
  obtain ⟨c2, a2, hm, hc, -, ha⟩ := check_gmail_some h
  have hA0 : ∀ x, (load_state file).alerted_subjects.mem x = true →
      completedFlag (load_state file).completed_subjects x = true := by
    cases file with
    | none =>
      intro x hx
      simp [load_state, PyStrColl.mem] at hx
    | some st =>
      intro x hx
      exact hinv.1 x (by simpa [load_state, PyStrColl.mem] using hx)
  have hG0 : ∀ q ∈ (load_state file).completed_subjects, q.2.completed = true →
      q.2.received.toFinset = EXPECTED_PARTS.toFinset := by
    cases file with
    | none =>
      intro q hq
      cases hq
    | some st => exact hinv.2
  constructor
  · intro b hb
    rw [ha, mem_toSavedList] at hb
    rw [hc]
    exact mergeLoop_alerted_flag (scan_nodupKeys file msgs) hA0
      (scan_keys_flagFalse file msgs) hm b hb
  · rw [hc]
    exact mergeLoop_good hG0 hm

lemma fileAfter_inv {file : Option SavedState} (msgs : List Msg)
    (hinv : FileInv file) : FileInv (fileAfter file msgs) := by
  cases h : (check_gmail file msgs).2 with
  | none => rw [fileAfter_of_none h]; exact hinv
  | some saved => rw [fileAfter_of_some h]; exact cycle_inv hinv h

lemma runFiles_inv (batches : List (List Msg)) :
    ∀ (file : Option SavedState), FileInv file → FileInv (runFiles file batches) := by
  induction batches with
  | nil => exact fun _ hf => hf
  | cons batch rest ih =>
    exact fun file hf => ih (fileAfter file batch) (fileAfter_inv batch hf)

/-! ### The claims -/

/-- Claim C1: the spec asserts an at-most-once alert per base over the
lifetime of the state, surviving restarts.  The code violates it: after a
restart, `alerted_subjects` is the JSON list reloaded from disk, so
`alerted_subjects.add(base)` at line 140 raises `AttributeError` right after
`send_alert` has dispatched, the cycle aborts before `save_state`, and the
next cycle (re-fetching the same still-fresh message) dispatches a second
alert for the same base.  Concretely: cycle 1 records parts 1 and 2 of
"Report"; cycles 2 and 3 both deliver the completing "(3) Report" message and
both dispatch an alert. -/
theorem c1_alert_can_fire_twice_across_restart :
    (runCycles none
      [[⟨"a", "1, Report", true⟩, ⟨"b", "Report - 2", true⟩],
       [⟨"c", "(3) Report", true⟩],
       [⟨"c", "(3) Report", true⟩]]).1 = ["Report", "Report"] := by
  decide

/-- Claim C2: for every base updated in a cycle that saves its state, the
written record holds exactly the union of the previously stored received set
and the newly observed ordinals, and `completed = true` iff that union is
exactly the set with elements 1, 2, 3. -/
theorem c2_completion_exactness (file : Option SavedState) (msgs : List Msg)
    (base : String) (parts : List Nat) (saved : SavedState)
    (hnp : (base, parts) ∈ (cycleScan file msgs).2)
    (hsave : (check_gmail file msgs).2 = some saved) :
    ∃ r, dlookup base saved.completed_subjects = some r ∧
      r.received = pyUnion (recvSet (load_state file).completed_subjects base) parts ∧
      (r.completed = true ↔
        (pyUnion (recvSet (load_state file).completed_subjects base) parts).toFinset
          = ({1, 2, 3} : Finset Nat)) := by
  obtain ⟨c2, a2, hm, hc, -, -⟩ := check_gmail_some hsave
  have hl := mergeLoop_lookup (scan_nodupKeys file msgs) hnp hm
  refine ⟨⟨pyUnion (recvSet (load_state file).completed_subjects base) parts,
    pySetEq (pyUnion (recvSet (load_state file).completed_subjects base) parts)
      EXPECTED_PARTS⟩, ?_, rfl, ?_⟩
  · rw [hc]
    exact hl
  · rw [pySetEq_iff]
    have he : EXPECTED_PARTS.toFinset = ({1, 2, 3} : Finset Nat) := by decide
    rw [he]

theorem c2_completion_exactness_witness :
    (("Report", [1]) ∈ (cycleScan none [⟨"a", "1, Report", true⟩]).2) ∧
    ((check_gmail none [⟨"a", "1, Report", true⟩]).2
      = some ⟨[("Report", ⟨[1], false⟩)], ["a"], []⟩) ∧
    ∃ r, dlookup "Report"
        (⟨[("Report", ⟨[1], false⟩)], ["a"], []⟩ : SavedState).completed_subjects
        = some r ∧
      r.received = pyUnion (recvSet (load_state none).completed_subjects "Report") [1] ∧
      (r.completed = true ↔
        (pyUnion (recvSet (load_state none).completed_subjects "Report") [1]).toFinset
          = ({1, 2, 3} : Finset Nat)) :=
  ⟨by decide, by decide,
    c2_completion_exactness none [⟨"a", "1, Report", true⟩] "Report" [1]
      ⟨[("Report", ⟨[1], false⟩)], ["a"], []⟩ (by decide) (by decide)⟩

/-- Claim C3 as stated is false: a base whose accumulated received set becomes
the set with elements 1, 2, 3, 4 is marked `completed = false`, not `true`:
line 137 tests exact set equality with `EXPECTED_PARTS`.  Here the stored
record {received: [1,2,4]} merged with the message "(3) Report" accumulates
exactly that four-element set, yet the written record has
`completed = false`. -/
theorem c3_counterexample :
    (check_gmail (some ⟨[("Report", ⟨[1, 2, 4], false⟩)], [], []⟩)
        [⟨"c", "(3) Report", true⟩]).2
      = some ⟨[("Report", ⟨[1, 2, 4, 3], false⟩)], ["c"], []⟩ ∧
    ([1, 2, 4, 3] : List Nat).toFinset = ({1, 2, 3, 4} : Finset Nat) := by
  constructor <;> decide

/-- Claim C3 amended: a base whose accumulated received set becomes exactly
the set with elements 1, 2, 3, 4 is marked `completed = false` — an extra
ordinal prevents completion, because completion requires exact set equality
with the expected ordinals. -/
theorem c3_extra_ordinal_prevents_completion (file : Option SavedState)
    (msgs : List Msg) (base : String) (parts : List Nat) (saved : SavedState)
    (hnp : (base, parts) ∈ (cycleScan file msgs).2)
    (hsave : (check_gmail file msgs).2 = some saved)
    (hset : (pyUnion (recvSet (load_state file).completed_subjects base) parts).toFinset
      = ({1, 2, 3, 4} : Finset Nat)) :
    ∃ r, dlookup base saved.completed_subjects = some r ∧ r.completed = false := by
  obtain ⟨c2, a2, hm, hc, -, -⟩ := check_gmail_some hsave
  have hl := mergeLoop_lookup (scan_nodupKeys file msgs) hnp hm
  refine ⟨_, by rw [hc]; exact hl, ?_⟩
  rw [Bool.eq_false_iff]
  intro hT
  rw [pySetEq_iff, hset] at hT
  have he : EXPECTED_PARTS.toFinset = ({1, 2, 3} : Finset Nat) := by decide
  rw [he] at hT
  exact absurd hT (by decide)

theorem c3_extra_ordinal_prevents_completion_witness :
    ((("Report", [3]) ∈ (cycleScan
        (some ⟨[("Report", ⟨[1, 2, 4], false⟩)], [], []⟩)
        [⟨"c", "(3) Report", true⟩]).2) ∧
      (pyUnion (recvSet (load_state
          (some ⟨[("Report", ⟨[1, 2, 4], false⟩)], [], []⟩)).completed_subjects
        "Report") [3]).toFinset = ({1, 2, 3, 4} : Finset Nat)) ∧
    ∃ r, dlookup "Report"
        (⟨[("Report", ⟨[1, 2, 4, 3], false⟩)], ["c"], []⟩ : SavedState).completed_subjects
        = some r ∧ r.completed = false :=
  ⟨⟨by decide, by decide⟩,
    c3_extra_ordinal_prevents_completion
      (some ⟨[("Report", ⟨[1, 2, 4], false⟩)], [], []⟩)
      [⟨"c", "(3) Report", true⟩] "Report" [3]
      ⟨[("Report", ⟨[1, 2, 4, 3], false⟩)], ["c"], []⟩
      (by decide) (by decide) (by decide)⟩

/-- Claim C4 as stated is false: a fetched, examined message whose subject
yields no ordinal is NOT persisted into `seen_ids` — lines 118-119 `continue`
before `seen_ids.add` at line 124, so the id is dropped and the message will
be re-parsed on every later cycle.  Concretely, the message "Hello" (id "m1")
leaves the saved `seen_ids` empty. -/
theorem c4_counterexample :
    check_gmail none [⟨"m1", "Hello", true⟩] = ([], some ⟨[], [], []⟩) ∧
    "m1" ∉ (⟨[], [], []⟩ : SavedState).seen_ids := by
  constructor <;> decide

/-- Claim C4 amended: a new message's id is persisted into `seen_ids` iff the
message is fresh, its subject yields an ordinal, and its base is not already
completed in the loaded state; messages skipped for any of those reasons are
not recorded and will be re-examined by later cycles. -/
theorem c4_seen_ids_only_contributing (file : Option SavedState) (msgs : List Msg)
    (m : Msg) (saved : SavedState)
    (hnodup : (msgs.map Msg.mid).Nodup)
    (hm : m ∈ msgs)
    (hnew : m.mid ∉ (load_state file).seen_ids)
    (hsave : (check_gmail file msgs).2 = some saved) :
    m.mid ∈ saved.seen_ids ↔
      m.fresh = true ∧ (parse_subject m.subject).2 ≠ none ∧
        completedFlag (load_state file).completed_subjects
          (parse_subject m.subject).1 = false := by
  obtain ⟨c2, a2, hm2, -, hs, -⟩ := check_gmail_some hsave
  rw [hs]
  constructor
  · intro hx
    rcases processMsgs_seen_src (load_state file).completed_subjects msgs hx with
      hseen | ⟨m', hm', hmid, hfr, hp, hfl⟩
    · exact absurd hseen hnew
    · have hmm : m' = m := List.inj_on_of_nodup_map hnodup hm' hm hmid
      rw [← hmm]
      exact ⟨hfr, hp, hfl⟩
  · rintro ⟨hfr, hp, hfl⟩
    exact processMsgs_seen_contrib (load_state file).completed_subjects hfr hp hfl
      (load_state file).seen_ids [] hm

theorem c4_seen_ids_only_contributing_witness :
    ((([⟨"a", "1, Report", true⟩] : List Msg).map Msg.mid).Nodup ∧
      (⟨"a", "1, Report", true⟩ : Msg) ∈ ([⟨"a", "1, Report", true⟩] : List Msg) ∧
      "a" ∉ (load_state none).seen_ids ∧
      (check_gmail none [⟨"a", "1, Report", true⟩]).2
        = some ⟨[("Report", ⟨[1], false⟩)], ["a"], []⟩) ∧
    ((⟨"a", "1, Report", true⟩ : Msg).mid
        ∈ (⟨[("Report", ⟨[1], false⟩)], ["a"], []⟩ : SavedState).seen_ids ↔
      (⟨"a", "1, Report", true⟩ : Msg).fresh = true ∧
        (parse_subject (⟨"a", "1, Report", true⟩ : Msg).subject).2 ≠ none ∧
        completedFlag (load_state none).completed_subjects
          (parse_subject (⟨"a", "1, Report", true⟩ : Msg).subject).1 = false) :=
  ⟨⟨by decide, by decide, by decide, by decide⟩,
    c4_seen_ids_only_contributing none [⟨"a", "1, Report", true⟩]
      ⟨"a", "1, Report", true⟩ ⟨[("Report", ⟨[1], false⟩)], ["a"], []⟩
      (by decide) (by decide) (by decide) (by decide)⟩

/-- Claim C5 as stated is false for bracket-wrapped digits: the subject "(2)"
does yield an ordinal.  The leading-number regex consumes "(", captures "2",
backtracks the optional closing-bracket run to empty, and captures ")" as the
non-digit remainder, so `parse_subject "(2)"` returns base ")" with
ordinal 2, not NoOrdinal. -/
theorem c5_counterexample :
    (parse_subject "(2)").2 = some 2 ∧ parse_subject "(2)" = (")", some 2) := by
  constructor <;> decide

/-- Claim C5 amended: a subject that after trimming consists purely of digits
(no brackets, no other text) yields no ordinal and is returned unchanged as
the base; bracket-wrapped digit-only subjects such as "(2)" are excluded from
this rule because the closing bracket itself serves as the non-digit
remainder. -/
theorem c5_pure_digits_no_ordinal (s : String)
    (h : ∀ c ∈ pyStrip s.data, c.isDigit = true) :
    parse_subject s = (String.mk (pyStrip s.data), none) := by
  unfold parse_subject parseSubjectChars
  simp only [match1_all_digits h, match2_all_digits h]

theorem c5_pure_digits_no_ordinal_witness :
    (∀ c ∈ pyStrip ("42" : String).data, c.isDigit = true) ∧
      parse_subject "42" = (String.mk (pyStrip ("42" : String).data), none) :=
  ⟨by decide, c5_pure_digits_no_ordinal "42" (by decide)⟩

/-- Claim C6: the three-cycle scenario diverges from the spec at cycle 2.
Cycle 1 behaves as claimed (received = the set with 1 and 2, not completed, no
alert).  In cycle 2 the completing "(3) Report" message does trigger the
alert dispatch, but `alerted_subjects` — reloaded from JSON as a list — has
no `.add`, the `AttributeError` aborts the cycle, and NOTHING is saved: the
state after cycle 2 still shows received = [1, 2], completed = false, and no
alerted mark, contradicting the claimed persisted `completed = true` /
`alerted = true`.  Cycle 3 (redelivering id "a") then changes nothing and
dispatches no alert, as claimed — but only because cycle 2's results were
lost. -/
theorem c6_scenario_cycle2_crashes :
    check_gmail none [⟨"a", "1, Report", true⟩, ⟨"b", "Report - 2", true⟩]
      = ([], some ⟨[("Report", ⟨[1, 2], false⟩)], ["a", "b"], []⟩) ∧
    check_gmail (some ⟨[("Report", ⟨[1, 2], false⟩)], ["a", "b"], []⟩)
        [⟨"c", "(3) Report", true⟩]
      = (["Report"], none) ∧
    check_gmail (some ⟨[("Report", ⟨[1, 2], false⟩)], ["a", "b"], []⟩)
        [⟨"a", "1, Report", true⟩]
      = ([], some ⟨[("Report", ⟨[1, 2], false⟩)], ["a", "b"], []⟩) := by
  refine ⟨by decide, by decide, by decide⟩

/-- Claim C7: running a second cycle over the same batch leaves the durable
state exactly as after the first cycle; moreover, when the first cycle saved
`saved`, the second cycle dispatches no alert at all and saves `saved`
unchanged.  (When the first cycle crashed and saved nothing, both runs leave
the file untouched.) -/
theorem c7_second_cycle_idempotent (file : Option SavedState) (msgs : List Msg) :
    fileAfter (fileAfter file msgs) msgs = fileAfter file msgs ∧
      ∀ saved : SavedState, (check_gmail file msgs).2 = some saved →
        check_gmail (some saved) msgs = ([], some saved) := by
  have key : ∀ saved : SavedState, (check_gmail file msgs).2 = some saved →
      check_gmail (some saved) msgs = ([], some saved) := by
    intro saved h
    obtain ⟨c2, a2, hm, hc, hs, ha⟩ := check_gmail_some h
    have hseen_nodup : saved.seen_ids.Nodup := by
      rw [hs]
      apply processMsgs_nodup_seen
      cases file with
      | none => exact List.nodup_nil
      | some st => exact nodup_pyDedup st.seen_ids
    have hded : pyDedup saved.seen_ids = saved.seen_ids := pyDedup_eq_self hseen_nodup
    have hskip : ∀ m ∈ msgs, m.mid ∈ (load_state (some saved)).seen_ids ∨
        m.fresh = false ∨ (parse_subject m.subject).2 = none ∨
        completedFlag (load_state (some saved)).completed_subjects
          (parse_subject m.subject).1 = true := by
      intro m hm2
      by_cases hfr : m.fresh = true
      · cases hp : (parse_subject m.subject).2 with
        | none => exact Or.inr (Or.inr (Or.inl rfl))
        | some part =>
          by_cases hfl : completedFlag (load_state file).completed_subjects
              (parse_subject m.subject).1 = true
          · refine Or.inr (Or.inr (Or.inr ?_))
            show completedFlag saved.completed_subjects (parse_subject m.subject).1 = true
            rw [completedFlag_eq_of_dlookup (cycle_preserves_completed hfl h)]
            exact hfl
          · refine Or.inl ?_
            show m.mid ∈ pyDedup saved.seen_ids
            rw [hded, hs]
            exact processMsgs_seen_contrib (load_state file).completed_subjects hfr
              (by simp [hp]) (Bool.eq_false_iff.mpr hfl)
              (load_state file).seen_ids [] hm2
      · exact Or.inr (Or.inl (Bool.eq_false_iff.mpr hfr))
    have hscan2 : cycleScan (some saved) msgs
        = ((load_state (some saved)).seen_ids, []) :=
      processMsgs_skip_all (load_state (some saved)).completed_subjects hskip
    unfold check_gmail
    rw [hscan2]
    show ([], some (⟨saved.completed_subjects, pyDedup saved.seen_ids,
      saved.alerted_subjects⟩ : SavedState)) = ([], some saved)
    rw [hded]
  refine ⟨?_, key⟩
  cases h : (check_gmail file msgs).2 with
  | none => rw [fileAfter_of_none h, fileAfter_of_none h]
  | some saved =>
    rw [fileAfter_of_some h]
    exact fileAfter_of_some (congrArg Prod.snd (key saved h))

theorem c7_second_cycle_idempotent_witness :
    (fileAfter (fileAfter none [⟨"a", "1, Report", true⟩]) [⟨"a", "1, Report", true⟩]
      = fileAfter none [⟨"a", "1, Report", true⟩]) ∧
    check_gmail (some ⟨[("Report", ⟨[1], false⟩)], ["a"], []⟩)
        [⟨"a", "1, Report", true⟩]
      = ([], some ⟨[("Report", ⟨[1], false⟩)], ["a"], []⟩) :=
  ⟨(c7_second_cycle_idempotent none [⟨"a", "1, Report", true⟩]).1,
    (c7_second_cycle_idempotent none [⟨"a", "1, Report", true⟩]).2
      ⟨[("Report", ⟨[1], false⟩)], ["a"], []⟩ (by decide)⟩

/-- Claim C8: once a stored record has `completed = true`, the base is closed:
its record is unchanged by any sequence of later cycles (every incoming
message parsed to it is skipped at lines 120-121, so no ordinal is ever
merged). -/
theorem c8_completed_base_closed (file : Option SavedState)
    (batches : List (List Msg)) (b : String)
    (hflag : completedFlag (load_state file).completed_subjects b = true) :
    dlookup b (load_state (runFiles file batches)).completed_subjects
      = dlookup b (load_state file).completed_subjects := by
  induction batches generalizing file with
  | nil => rfl
  | cons batch rest ih =>
    have h1 := fileAfter_preserves_completed file batch b hflag
    have h2 : completedFlag
        (load_state (fileAfter file batch)).completed_subjects b = true := by
      rw [completedFlag_eq_of_dlookup h1]
      exact hflag
    have h3 := ih (fileAfter file batch) h2
    show dlookup b (load_state (runFiles (fileAfter file batch) rest)).completed_subjects
      = dlookup b (load_state file).completed_subjects
    rw [h3, h1]

theorem c8_completed_base_closed_witness :
    (completedFlag (load_state (some ⟨[("Report", ⟨[1, 2, 3], true⟩)], [],
        ["Report"]⟩)).completed_subjects "Report" = true) ∧
    dlookup "Report" (load_state (runFiles
        (some ⟨[("Report", ⟨[1, 2, 3], true⟩)], [], ["Report"]⟩)
        [[⟨"z", "(4) Report", true⟩], [⟨"w", "(1) Report", true⟩]])).completed_subjects
      = dlookup "Report" (load_state (some ⟨[("Report", ⟨[1, 2, 3], true⟩)], [],
        ["Report"]⟩)).completed_subjects :=
  ⟨by decide,
    c8_completed_base_closed (some ⟨[("Report", ⟨[1, 2, 3], true⟩)], [], ["Report"]⟩)
      [[⟨"z", "(4) Report", true⟩], [⟨"w", "(1) Report", true⟩]] "Report" (by decide)⟩

/-- Claim C9: every state persisted over any execution from the empty initial
state satisfies the invariant: every alerted base has a completed record, and
every completed record's received set is exactly the expected ordinal set.
(Cycles that raise persist nothing, so no error path can write a violating
state.) -/
theorem c9_saved_state_invariant (batches : List (List Msg)) (st : SavedState)
    (h : runFiles none batches = some st) : StateInv st := by
  have h2 := runFiles_inv batches none trivial
  rw [h] at h2
  exact h2

theorem c9_saved_state_invariant_witness :
    (runFiles none [[⟨"a", "1, Report", true⟩, ⟨"b", "Report - 2", true⟩,
        ⟨"c", "(3) Report", true⟩]]
      = some ⟨[("Report", ⟨[1, 2, 3], true⟩)], ["a", "b", "c"], ["Report"]⟩) ∧
    StateInv ⟨[("Report", ⟨[1, 2, 3], true⟩)], ["a", "b", "c"], ["Report"]⟩ :=
  ⟨by decide,
    c9_saved_state_invariant
      [[⟨"a", "1, Report", true⟩, ⟨"b", "Report - 2", true⟩, ⟨"c", "(3) Report", true⟩]]
      ⟨[("Report", ⟨[1, 2, 3], true⟩)], ["a", "b", "c"], ["Report"]⟩ (by decide)⟩

/-- Claim C10: control leaves every `check_gmail` call through the `finally:
sys.exit(0)` — on the normal path and on the caught-exception path alike —
and `SystemExit` is not caught by `except Exception`, so the `while True`
driver never reaches a second iteration: one program invocation performs
exactly one polling cycle. -/
theorem c10_single_cycle_per_invocation (batch : List Msg)
    (rest : List (List Msg)) (file : Option SavedState) :
    check_gmail_control file batch = PControl.sysExit 0 ∧
      mainLoop (batch :: rest) file = 1 := by
  have hctl : check_gmail_control file batch = PControl.sysExit 0 := by
    unfold check_gmail_control
    cases (check_gmail file batch).2 <;> rfl
  refine ⟨hctl, ?_⟩
  unfold mainLoop
  rw [hctl]

end EmailAlert
